import Mathlib

/-!
# Verification of the rakune edit-apply-build core

A shallow embedding of the core logic of the rakune repository:

* Rust string primitives (`str::lines`, `Vec::join`) at the character-list level;
* `GitRepository::transform` (the `UpdateFragment` arm of `rakune/src/repository.rs`,
  including its bounds check, its inclusive `splice(start..=end, ..)` call and the
  `unreachable!()` fallthrough for every other variant);
* `Fragment::read_lines`;
* the instruction parser `TryFrom<&str> for Transformation` built on a leftmost-first
  backtracking regex engine mirroring the `regex` crate's semantics for the concrete
  patterns used by the source;
* `RustBuilder::build` from `rakune-cli/src/main.rs` (diagnostic extraction);
* the self-correction loop of `main`.

Machine integers (`usize`) are modeled as `Nat` with the 64-bit bound made explicit
where the source can overflow; panics (`unwrap`, `unreachable!`, slice/splice range
failures) are modeled as explicit `panicked` outcomes.
-/

namespace Rakune

/-! ### Rust string primitives -/

/-- Split a character list at every `'\n'`, keeping empty pieces: the pieces
produced by Rust `str::split('\n')`.  The result is always nonempty. -/
def splitNl : List Char → List (List Char)
  | [] => [[]]
  | c :: cs =>
    if c = '\n' then [] :: splitNl cs
    else
      match splitNl cs with
      | [] => [[c]]
      | p :: ps => (c :: p) :: ps

/-- Remove one trailing carriage return, modeling the
`line.strip_suffix('\r').unwrap_or(line)` step of Rust `str::lines`. -/
def stripCr (cs : List Char) : List Char :=
  if cs.getLast? = some '\r' then cs.dropLast else cs

/-- Rust `str::lines` on a character list: split at `'\n'`, drop the final empty
piece produced by a trailing newline (`split_terminator` behaviour), and strip a
trailing `'\r'` from each line. -/
def rustLinesChars (cs : List Char) : List (List Char) :=
  let ps := splitNl cs
  (if ps.getLast? = some [] then ps.dropLast else ps).map stripCr

/-- Rust `content.lines().collect::<Vec<_>>()`: the line sequence of a file's
content. -/
def rustLines (s : String) : List String :=
  (rustLinesChars s.data).map (fun cs => String.mk cs)

/-- Rust `lines.join("\n")`: interleave a single newline between lines, with no
terminating newline appended. -/
def joinNl : List String → String
  | [] => ""
  | [l] => l
  | l :: ls => l ++ "\n" ++ joinNl ls

/-- `usize::MAX + 1` on the 64-bit targets the source is built for. -/
def usizeBound : Nat := 2 ^ 64

/-- Rust `str::parse::<usize>()` applied to a string of decimal digits (the only
shape the source ever feeds it, since it comes from a `\d+` regex capture):
`none` models the `Err` case, which for an all-digit input happens exactly when
the value overflows `usize`. -/
def parseUsize (cs : List Char) : Option Nat :=
  if cs = [] then none
  else
    let v := cs.foldl (fun a c => a * 10 + (c.toNat - 48)) 0
    if v < usizeBound then some v else none

/-! ### Data model (`rakune/src/repository.rs`) -/

/-- `Fragment { filepath, line_range }`. -/
structure Fragment where
  filepath : String
  line_range : Nat × Nat
  deriving DecidableEq, Repr

/-- `Comment { message, fragments }`. -/
structure Comment where
  message : String
  fragments : List Fragment
  deriving DecidableEq, Repr

/-- The `Transformation` enum of `rakune/src/repository.rs`. -/
inductive Transformation where
  | RenameSymbol (old new : String)
  | CreateFile (path : String)
  | DeleteFile (path : String)
  | MoveFile (old new : String)
  | UpdateFragment (fragment : Fragment) (updated_lines : List String)
  | InsertFragment (line_no : Nat) (content : List String)
  deriving DecidableEq, Repr

/-- Outcome of one `GitRepository::transform` call on a file: `ok` carries the
new line sequence written back, `err` the `Err(..)` message returned before any
write, `panicked` a process abort (`unreachable!()` or an out-of-range
`Vec::splice`). -/
inductive TransformOutcome where
  | ok (newLines : List String)
  | err (msg : String)
  | panicked
  deriving DecidableEq, Repr

/-- The message built by
`format!("One of the line ranges {:?} was not in bound of the file [0..{}].", range, len)`. -/
def boundsErrMsg (r : Nat × Nat) (len : Nat) : String :=
  "One of the line ranges (" ++ toString r.1 ++ ", " ++ toString r.2 ++
    ") was not in bound of the file [0.." ++ toString len ++ "]."

/-- The `UpdateFragment` arm of `GitRepository::transform`
(`rakune/src/repository.rs:21-47`) acting on the file's current line sequence:

* return `Err` (before touching the file) when either range component is outside
  `0..=lines.len()`;
* otherwise call `lines.splice(r.1..=r.2, updated)`, an **inclusive** range,
  which panics when `r.2 + 1` exceeds `lines.len()` or `r.1` exceeds `r.2 + 1`,
  and otherwise replaces the elements at indices `r.1 ..= r.2` with `updated`. -/
def transformUpdate (lines : List String) (r : Nat × Nat) (updated : List String) :
    TransformOutcome :=
  if lines.length < r.1 ∨ lines.length < r.2 then
    .err (boundsErrMsg r lines.length)
  else if lines.length < r.2 + 1 ∨ r.2 + 1 < r.1 then
    .panicked
  else
    .ok (lines.take r.1 ++ updated ++ lines.drop (r.2 + 1))

/-- `GitRepository::transform` (`rakune/src/repository.rs:15-51`): `content` is
the current content of the file named by the fragment's `filepath`
(`fragment.read_file()`). Every variant other than `UpdateFragment` hits the
`_ => unreachable!()` arm and aborts the process. -/
def GitRepository.transform (content : String) (t : Transformation) : TransformOutcome :=
  match t with
  | .UpdateFragment fragment updated_lines =>
      transformUpdate (rustLines content) fragment.line_range updated_lines
  | _ => .panicked

/-- The content of the target file after a `GitRepository::transform` call: the
file is rewritten (truncate + `write_all`) with `lines.join("\n")` only on the
successful path; the `Err` return and both panics happen before the file is
opened for writing, leaving it byte-for-byte unchanged. -/
def fileAfter (content : String) (t : Transformation) : String :=
  match GitRepository.transform content t with
  | .ok newLines => joinNl newLines
  | _ => content

/-- Outcome of `Fragment::read_lines`. -/
inductive ReadOutcome where
  | ok (s : String)
  | err (msg : String)
  | panicked
  deriving DecidableEq, Repr

/-- `Fragment::read_lines` (`rakune/src/repository.rs:130-147`): bounds-check
both range components against `0..=lines.len()`, then return
`lines[r.1 .. r.2].join("\n")` — a half-open slice, which panics when
`r.1 > r.2` (slice index starts after it ends). `content` is the file's current
content. -/
def Fragment.read_lines (content : String) (f : Fragment) : ReadOutcome :=
  let lines := rustLines content
  let r := f.line_range
  if lines.length < r.1 ∨ lines.length < r.2 then
    .err (boundsErrMsg r lines.length)
  else if r.2 < r.1 then
    .panicked
  else
    .ok (joinNl ((lines.drop r.1).take (r.2 - r.1)))

/-! ### A leftmost-first backtracking regex engine

Both regexes in the source are concatenations of literals, an optional comma,
and repetitions of single-character classes (`.` , `\d`, `[\s\S]`), some lazy
and some greedy, some capturing.  The engine below implements exactly that
fragment with the `regex` crate's leftmost-first (Perl-like preference order)
semantics: at the first input position where the whole sequence can match, each
repetition takes the shortest (lazy) or longest (greedy) viable count, earlier
items having priority over later ones. -/

/-- One item of a concatenation pattern. `rep cls atLeastOne greedy captured`
is `x*` / `x*?` / `x+` over the single-character class `cls`, capturing the
consumed characters as a group when `captured` is true. -/
inductive Pat where
  | lit (l : List Char)
  | opt (c : Char)
  | rep (cls : Char → Bool) (atLeastOne : Bool) (greedy : Bool) (captured : Bool)

/-- `.` in the source's regexes: any character except a newline (no `s` flag). -/
def dotCls (c : Char) : Bool := c != '\n'

/-- `[\s\S]`: any character at all. -/
def anyCls (_ : Char) : Bool := true

/-- `\d`, restricted to the ASCII digits that every input in the claims uses. -/
def digitCls (c : Char) : Bool := c.isDigit

/-- Length of the maximal prefix of `s` whose characters all satisfy `cls`:
the largest number of characters a repetition over `cls` can consume. -/
def clsRunLen (cls : Char → Bool) : List Char → Nat
  | [] => 0
  | c :: cs => if cls c then clsRunLen cls cs + 1 else 0

/-- Try the repetition counts `ks` in order: for each `k`, run the continuation
on the input minus its first `k` characters, returning the first success
together with the `k` that produced it. -/
def firstK (next : List Char → Option α) (s : List Char) : List Nat → Option (Nat × α)
  | [] => none
  | k :: ks =>
    match next (s.drop k) with
    | some r => some (k, r)
    | none => firstK next s ks

/-- The candidate repetition counts, in backtracking preference order: lazy
repetitions try the fewest characters first, greedy ones the most; a `+`
repetition never tries zero. -/
def repKs (atLeastOne greedy : Bool) (m : Nat) : List Nat :=
  let ks := if atLeastOne then (List.range m).map (· + 1) else List.range (m + 1)
  if greedy then ks.reverse else ks

/-- Match the concatenation `ps` against a prefix of `s` with leftmost-first
backtracking, returning the capture groups in order and the unconsumed rest. -/
def mtch : List Pat → List Char → Option (List (List Char) × List Char)
  | [], s => some ([], s)
  | .lit l :: ps, s =>
    if l.isPrefixOf s then mtch ps (s.drop l.length) else none
  | .opt c :: ps, s =>
    match s with
    | [] => mtch ps []
    | c' :: rest =>
      if c' = c then
        match mtch ps rest with
        | some r => some r
        | none => mtch ps (c' :: rest)
      else mtch ps (c' :: rest)
  | .rep cls atLeastOne greedy captured :: ps, s =>
    match firstK (fun t => mtch ps t) s (repKs atLeastOne greedy (clsRunLen cls s)) with
    | some (k, (caps, rest)) =>
      some ((if captured then s.take k :: caps else caps), rest)
    | none => none

/-- Find the leftmost match of `ps` in `s` (trying every start position from
the left, as the `regex` crate's search does), returning its captures and the
input remaining after the match. -/
def findFirst (ps : List Pat) (s : List Char) : Option (List (List Char) × List Char) :=
  match mtch ps s with
  | some r => some r
  | none =>
    match s with
    | [] => none
    | _ :: t => findFirst ps t

/-- Fuelled scan for `captures_iter`: collect the captures of successive
non-overlapping leftmost matches, each search resuming at the end of the
previous match. -/
def scanAux (ps : List Pat) : Nat → List Char → List (List (List Char))
  | 0, _ => []
  | fuel + 1, s =>
    match findFirst ps s with
    | none => []
    | some (caps, rest) => caps :: scanAux ps fuel rest

/-- `captures_iter`: all non-overlapping leftmost matches, in order.  Every
pattern in the source starts with a nonempty literal, so each match consumes at
least one character and `s.length + 1` rounds of fuel are exact. -/
def findAll (ps : List Pat) (s : List Char) : List (List (List Char)) :=
  scanAux ps (s.length + 1) s

/-! ### The instruction parser (`TryFrom<&str> for Transformation`) -/

/-- The regex of `rakune/src/repository.rs:186-189`:
`filepath: (.*?),?\n.*start_line: (\d+),?\n.*end_line: (\d+),?\n.*content: ([\s\S]*)`
followed by a closing three-backtick fence. -/
def instrPat : List Pat :=
  [ .lit "filepath: ".data
  , .rep dotCls false false true
  , .opt ','
  , .lit "\n".data
  , .rep dotCls false true false
  , .lit "start_line: ".data
  , .rep digitCls true true true
  , .opt ','
  , .lit "\n".data
  , .rep dotCls false true false
  , .lit "end_line: ".data
  , .rep digitCls true true true
  , .opt ','
  , .lit "\n".data
  , .rep dotCls false true false
  , .lit "content: ".data
  , .rep anyCls false true true
  , .lit "\x60\x60\x60".data
  ]

/-- Outcome of `Transformation::try_from(&str)`: `ok` a parsed transformation,
`err` the `Err` branch, `panicked` the `.unwrap()` aborts on the line-number
parses. -/
inductive ParseOutcome where
  | ok (t : Transformation)
  | err (msg : String)
  | panicked
  deriving DecidableEq, Repr

/-- Build the `UpdateFragment` from one regex match, as the closure at
`rakune/src/repository.rs:194-206` does: `start.parse().unwrap()`,
`end.parse().unwrap()`, and `content.lines()` as the updated lines. -/
def mkUpdateFragment (caps : List (List Char)) : ParseOutcome :=
  match caps with
  | [filepath, start, end_, content] =>
    match parseUsize start, parseUsize end_ with
    | some start_line, some end_line =>
      .ok (.UpdateFragment
        ⟨String.mk filepath, (start_line, end_line)⟩
        ((rustLinesChars content).map (fun cs => String.mk cs)))
    | _, _ => .panicked
  | _ => .panicked

/-- `TryFrom<&str> for Transformation` (`rakune/src/repository.rs:182-212`):
take only the **first** match of `captures_iter` (`.next()`); when there is no
match return the `Err` of `ok_or_else`. -/
def transformationTryFrom (s : String) : ParseOutcome :=
  match findFirst instrPat s.data with
  | none => .err "failed to parse transformation"
  | some (caps, _) => mkUpdateFragment caps

/-- Modelled from the spec: `parse` as §4.1 words it — extract **every**
well-formed occurrence of the template (all of `captures_iter`, not just the
first), preserving order of appearance.  Used only to compare the spec's
reading with the source's `transformationTryFrom`. -/
def specParseAll (s : String) : List ParseOutcome :=
  (findAll instrPat s.data).map mkUpdateFragment

/-! ### The diagnostics extractor (`RustBuilder::build`, `rakune-cli/src/main.rs`) -/

/-- The regex of `rakune-cli/src/main.rs:50-51`:
`error: ([\s\S]*?)\n --> (.*?):(\d+):(\d+)`. -/
def diagPat : List Pat :=
  [ .lit "error: ".data
  , .rep anyCls false false true
  , .lit "\n --> ".data
  , .rep dotCls false false true
  , .lit ":".data
  , .rep digitCls true true true
  , .lit ":".data
  , .rep digitCls true true true
  ]

/-- All matches of the diagnostic regex in the build tool's stderr: the
"recognized error blocks". -/
def diagMatches (stderr : List Char) : List (List (List Char)) :=
  findAll diagPat stderr

/-- `format!("fix this build error:\n\n{}", p)` (`Prompter::template_debug`). -/
def templateDebug (p : String) : String :=
  "fix this build error:\n\n" ++ p

/-- The `Comment` built from one matched error block
(`rakune-cli/src/main.rs:56-65`): message through `template_debug`, and exactly
one `Fragment` at `(line - 1, line)` on the diagnostic's path.  `none` models
the aborts: `line_no.parse::<usize>().unwrap()` panics on overflow, and
`- 1` underflows when the matched line number is `0` (a debug-build panic). -/
def mkDiagComment (caps : List (List Char)) : Option Comment :=
  match caps with
  | [error, file, line_no, _] =>
    match parseUsize line_no with
    | some l =>
      if l = 0 then none
      else some ⟨templateDebug (String.mk error), [⟨String.mk file, (l - 1, l)⟩]⟩
    | none => none
  | _ => none

/-- `.map(..).collect()` over the matches: the whole collection aborts when
building any single comment panics. -/
def collectComments : List (List (List Char)) → Option (List Comment)
  | [] => some []
  | caps :: rest =>
    match mkDiagComment caps, collectComments rest with
    | some c, some cs => some (c :: cs)
    | _, _ => none

/-- The comments `RustBuilder::build` collects from stderr; `none` when building
any of them panics. -/
def buildComments (stderr : List Char) : Option (List Comment) :=
  collectComments (diagMatches stderr)

/-- Result of `RustBuilder::build`. -/
inductive BuildOutcome where
  | ok
  | errs (comments : List Comment)
  | panicked
  deriving DecidableEq, Repr

/-- `RustBuilder::build` (`rakune-cli/src/main.rs:25-72`) as a function of the
build process's exit code (`None` when killed by a signal) and its stderr text:
`Ok(())` exactly on exit code `0`; on every other exit, `Err` with one comment
per recognized error block of stderr. -/
def rustBuild (exitCode : Option Int) (stderr : List Char) : BuildOutcome :=
  if exitCode = some 0 then .ok
  else
    match buildComments stderr with
    | some cs => .errs cs
    | none => .panicked

/-! ### The self-correction loop (`main`, `rakune-cli/src/main.rs:234-243`) -/

/-- The inner `while let Err(errors) = builder.build(..)` loop of `main`, for
one popped comment, over an abstract repository state `ρ`:

* `build` is what `RustBuilder::build` returns in the current state;
* `gen` is the state after `coder.generate_transformations(&error)` on the
  first diagnostic (modeled as always succeeding — when it fails the whole run
  aborts with its error instead of converging or reporting anything else).

The source has no iteration bound: the loop only exits when a build succeeds.
`fuel` bounds the number of build cycles we observe; `none` means the loop was
still running after `fuel` cycles. -/
def selfCorrectLoop {ρ : Type} (build : ρ → Except (List Comment) Unit)
    (gen : ρ → Comment → ρ) : Nat → ρ → Option ρ
  | 0, _ => none
  | fuel + 1, repo =>
    match build repo with
    | .ok _ => some repo
    | .error errors =>
      match errors.head? with
      | some e => selfCorrectLoop build gen fuel (gen repo e)
      | none => selfCorrectLoop build gen fuel repo

/-! ### Engine lemmas -/

/-- A successful `firstK` comes from running the continuation after the
returned repetition count. -/
theorem firstK_eq_some {α : Type} {next : List Char → Option α} {s : List Char}
    {ks : List Nat} {k : Nat} {r : α} (h : firstK next s ks = some (k, r)) :
    next (s.drop k) = some r := by
  induction ks with
  | nil => simp [firstK] at h
  | cons k' ks ih =>
    rw [firstK] at h
    split at h
    · simp only [Option.some.injEq, Prod.mk.injEq] at h
      obtain ⟨hk, hr⟩ := h
      subst hk
      subst hr
      assumption
    · exact ih h

/-- A match of a concatenation containing a literal item can only succeed on an
input containing that literal as a contiguous infix. -/
theorem mtch_lit_occurs {ps : List Pat} :
    ∀ {s : List Char} {caps : List (List Char)} {rest : List Char},
      mtch ps s = some (caps, rest) → ∀ {l : List Char}, Pat.lit l ∈ ps → l <:+: s := by
  induction ps with
  | nil =>
    intro s caps rest h l hl
    exact absurd hl (List.not_mem_nil _)
  | cons p ps ih =>
    intro s caps rest h l hl
    cases p with
    | lit l' =>
      rw [mtch] at h
      split at h
      · rcases List.mem_cons.mp hl with heq | hmem
        · injection heq with hll
          subst hll
          exact (List.isPrefixOf_iff_prefix.mp (by assumption)).isInfix
        · exact (ih h hmem).trans (List.drop_suffix _ _).isInfix
      · exact absurd h (by simp)
    | opt c =>
      have hmem : Pat.lit l ∈ ps := by
        rcases List.mem_cons.mp hl with heq | hmem
        · exact absurd heq (by simp)
        · exact hmem
      cases s with
      | nil =>
        rw [mtch] at h
        exact ih h hmem
      | cons c' t =>
        rw [mtch] at h
        by_cases hc : c' = c
        · rw [if_pos hc] at h
          cases hm : mtch ps t with
          | none => rw [hm] at h; exact ih h hmem
          | some r =>
            rw [hm] at h
            exact (ih hm hmem).trans (List.suffix_cons c' t).isInfix
        · rw [if_neg hc] at h
          exact ih h hmem
    | rep cls a1 g cap =>
      have hmem : Pat.lit l ∈ ps := by
        rcases List.mem_cons.mp hl with heq | hmem
        · exact absurd heq (by simp)
        · exact hmem
      rw [mtch] at h
      cases hf : firstK (fun t => mtch ps t) s (repKs a1 g (clsRunLen cls s)) with
      | none => rw [hf] at h; exact absurd h (by simp)
      | some kr =>
        obtain ⟨k, caps', rest'⟩ := kr
        exact (ih (firstK_eq_some hf) hmem).trans (List.drop_suffix _ _).isInfix

/-- The leftmost-match search inherits the literal-infix necessary condition. -/
theorem findFirst_lit_occurs {ps : List Pat} :
    ∀ {s : List Char} {caps : List (List Char)} {rest : List Char},
      findFirst ps s = some (caps, rest) → ∀ {l : List Char}, Pat.lit l ∈ ps → l <:+: s := by
  intro s
  induction s with
  | nil =>
    intro caps rest h l hl
    rw [findFirst] at h
    split at h
    · rename_i r hm
      exact mtch_lit_occurs hm hl
    · simp at h
  | cons c t ih =>
    intro caps rest h l hl
    rw [findFirst] at h
    split at h
    · rename_i r hm
      exact mtch_lit_occurs hm hl
    · exact (ih h hl).trans (List.suffix_cons c t).isInfix

/-- The closing fence is one of the instruction pattern's literal items. -/
theorem fence_mem_instrPat : Pat.lit "\x60\x60\x60".data ∈ instrPat := by
  unfold instrPat
  repeat first
  | exact List.Mem.head _
  | apply List.Mem.tail

/-- A successful `collect` yields exactly one comment per match. -/
theorem collectComments_length :
    ∀ {ms : List (List (List Char))} {cs : List Comment},
      collectComments ms = some cs → cs.length = ms.length := by
  intro ms
  induction ms with
  | nil =>
    intro cs h
    rw [collectComments] at h
    cases h
    rfl
  | cons m ms ih =>
    intro cs h
    rw [collectComments] at h
    cases hm : mkDiagComment m with
    | none => rw [hm] at h; simp at h
    | some c =>
      rw [hm] at h
      cases hc : collectComments ms with
      | none => rw [hc] at h; simp at h
      | some cs' =>
        rw [hc] at h
        simp only [Option.some.injEq] at h
        subst h
        simp [ih hc]

/-- Every collected comment is the image of one of the matches. -/
theorem collectComments_mem :
    ∀ {ms : List (List (List Char))} {cs : List Comment},
      collectComments ms = some cs → ∀ {c : Comment}, c ∈ cs →
        ∃ m ∈ ms, mkDiagComment m = some c := by
  intro ms
  induction ms with
  | nil =>
    intro cs h c hc
    rw [collectComments] at h
    cases h
    exact absurd hc (List.not_mem_nil _)
  | cons m ms ih =>
    intro cs h c hc
    rw [collectComments] at h
    cases hm : mkDiagComment m with
    | none => rw [hm] at h; simp at h
    | some c0 =>
      rw [hm] at h
      cases hcc : collectComments ms with
      | none => rw [hcc] at h; simp at h
      | some cs' =>
        rw [hcc] at h
        simp only [Option.some.injEq] at h
        subst h
        rcases List.mem_cons.mp hc with heq | hmem
        · subst heq
          exact ⟨m, List.mem_cons_self _ _, hm⟩
        · obtain ⟨m', hm', hmk⟩ := ih hcc hmem
          exact ⟨m', List.mem_cons_of_mem _ hm', hmk⟩

/-- The scan of `captures_iter` starts with the leftmost match. -/
theorem findAll_eq (ps : List Pat) (s : List Char) :
    findAll ps s =
      match findFirst ps s with
      | none => []
      | some (caps, rest) => caps :: scanAux ps s.length rest := by
  rw [findAll, scanAux]

/-- The last character of `lines.join("\n")` is the last character of the last
line, whenever that line is nonempty. -/
theorem joinNl_getLastChar :
    ∀ {ls : List String} {last : String}, ls.getLast? = some last → last.data ≠ [] →
      (joinNl ls).data.getLast? = last.data.getLast? := by
  intro ls
  induction ls with
  | nil => intro last h _; simp at h
  | cons l ls ih =>
    intro last h hne
    cases ls with
    | nil =>
      simp only [List.getLast?_singleton, Option.some.injEq] at h
      subst h
      rfl
    | cons l2 ls2 =>
      have h2 : (l2 :: ls2).getLast? = some last := by
        rw [List.getLast?_cons_cons] at h
        exact h
      have ihh := ih h2 hne
      show ((l ++ "\n" ++ joinNl (l2 :: ls2))).data.getLast? = last.data.getLast?
      rw [String.data_append, String.data_append]
      rw [List.getLast?_append]
      cases hlc : last.data.getLast? with
      | none => exact absurd (List.getLast?_eq_none_iff.mp hlc) hne
      | some c =>
        rw [ihh, hlc]
        rfl

/-! ### Claims -/

/-- C1 (amended): `GitRepository::transform` replaces the **inclusive** slice
`[start, end]` of the file's line sequence `L` with `U` — Rust
`splice(start..=end, ..)` — and writes the result back, provided
`start ≤ end < len(L)` (with `end = len(L)`, allowed by the bounds check, the
splice panics).  In particular for `L = ["a","b","c","d"]`, range `(1,3)` and
`U = ["X"]` the resulting lines are `["a","X"]`, not `["a","X","d"]`. -/
theorem c1_inclusive_splice (content : String) (L : List String) (fp : String)
    (s e : Nat) (U : List String) (hL : rustLines content = L) (hse : s ≤ e)
    (he : e < L.length) :
    GitRepository.transform content (.UpdateFragment ⟨fp, (s, e)⟩ U) =
      .ok (L.take s ++ U ++ L.drop (e + 1)) := by
  simp only [GitRepository.transform, transformUpdate, hL]
  rw [if_neg (by omega), if_neg (by omega)]

/-- Witness for C1's amended theorem at a concrete input: replacing the
inclusive span `(1, 2)` of `["a","b","c","d"]` with `["X"]`. -/
theorem c1_witness :
    GitRepository.transform "a\nb\nc\nd" (.UpdateFragment ⟨"f.rs", (1, 2)⟩ ["X"]) =
      .ok (["a", "b", "c", "d"].take 1 ++ ["X"] ++ ["a", "b", "c", "d"].drop 3) :=
  c1_inclusive_splice "a\nb\nc\nd" ["a", "b", "c", "d"] "f.rs" 1 2 ["X"]
    (by decide) (by decide) (by decide)

/-- C1 counterexample: on the claim's own example — file lines
`["a","b","c","d"]`, `line_range (1,3)`, replacement `["X"]` — the source
produces `["a","X"]`, not the claimed `["a","X","d"]`: the splice range is
inclusive, not half-open. -/
theorem c1_counterexample :
    GitRepository.transform "a\nb\nc\nd" (.UpdateFragment ⟨"f.rs", (1, 3)⟩ ["X"]) =
      .ok ["a", "X"] ∧
    GitRepository.transform "a\nb\nc\nd" (.UpdateFragment ⟨"f.rs", (1, 3)⟩ ["X"]) ≠
      .ok ["a", "X", "d"] :=
  ⟨by decide, by decide⟩

/-- C2: when either component of `line_range` lies outside `[0, line_count]`,
`GitRepository::transform` returns the error message naming the requested
range and the actual line count, and the target file's content is
byte-for-byte unchanged (the error return precedes the file open for
writing). -/
theorem c2_out_of_bounds (content : String) (fp : String) (r : Nat × Nat) (U : List String)
    (h : (rustLines content).length < r.1 ∨ (rustLines content).length < r.2) :
    GitRepository.transform content (.UpdateFragment ⟨fp, r⟩ U) =
      .err (boundsErrMsg r (rustLines content).length) ∧
    fileAfter content (.UpdateFragment ⟨fp, r⟩ U) = content := by
  have ht : GitRepository.transform content (.UpdateFragment ⟨fp, r⟩ U) =
      .err (boundsErrMsg r (rustLines content).length) := by
    simp only [GitRepository.transform, transformUpdate]
    rw [if_pos h]
  refine ⟨ht, ?_⟩
  simp only [fileAfter]
  rw [ht]

/-- Witness for C2 at a concrete input: range `(0, 5)` on a two-line file. -/
theorem c2_witness :
    GitRepository.transform "a\nb" (.UpdateFragment ⟨"f.rs", (0, 5)⟩ ["X"]) =
      .err (boundsErrMsg (0, 5) (rustLines "a\nb").length) ∧
    fileAfter "a\nb" (.UpdateFragment ⟨"f.rs", (0, 5)⟩ ["X"]) = "a\nb" :=
  c2_out_of_bounds "a\nb" "f.rs" (0, 5) ["X"] (by decide)

/-- C3 (the code, against the claim): with a builder that never succeeds — an
oracle that never fixes the error — the source's inner
`while let Err(errors) = builder.build(..)` loop never terminates: for every
bound `fuel` on the number of observed build cycles, the loop is still
running.  The source has no retry budget `K` and no `Unconverged` error. -/
theorem c3_loop_never_terminates {ρ : Type} (build : ρ → Except (List Comment) Unit)
    (gen : ρ → Comment → ρ) (h : ∀ r, ∃ es, build r = .error es) :
    ∀ (fuel : Nat) (repo : ρ), selfCorrectLoop build gen fuel repo = none := by
  intro fuel
  induction fuel with
  | zero => intro repo; rfl
  | succ n ih =>
    intro repo
    rw [selfCorrectLoop]
    obtain ⟨es, he⟩ := h repo
    rw [he]
    cases es with
    | nil => exact ih _
    | cons e es' => exact ih _

/-- Witness for C3's theorem: a concrete always-failing builder is still
looping after 5 cycles. -/
theorem c3_witness :
    selfCorrectLoop (fun _ : Unit => Except.error [⟨"fix this build error", []⟩])
      (fun r _ => r) 5 () = none :=
  c3_loop_never_terminates _ _ (fun _ => ⟨[⟨"fix this build error", []⟩], rfl⟩) 5 ()

/-- C5 (the code, against the claim): on every transformation variant other
than `UpdateFragment`, `GitRepository::transform` hits `_ => unreachable!()`
and panics — it does not return an `Unsupported` error. -/
theorem c5_unreachable_panics (content : String) (t : Transformation)
    (h : ∀ (frag : Fragment) (u : List String), t ≠ .UpdateFragment frag u) :
    GitRepository.transform content t = .panicked := by
  cases t with
  | UpdateFragment frag u => exact absurd rfl (h frag u)
  | RenameSymbol old new => rfl
  | CreateFile p => rfl
  | DeleteFile p => rfl
  | MoveFile old new => rfl
  | InsertFragment n c => rfl

/-- Witness for C5's theorem: `CreateFile` panics. -/
theorem c5_witness :
    GitRepository.transform "fn main()" (.CreateFile "src/new.rs") = .panicked :=
  c5_unreachable_panics "fn main()" (.CreateFile "src/new.rs")
    (fun _ _ h => Transformation.noConfusion h)

/-- C10: `Fragment::read_lines` returns exactly the half-open slice
`[start, end)` of the file's lines joined with newlines whenever
`start ≤ end ≤ line_count`, and an error naming the requested range and the
actual line count whenever a component lies outside `[0, line_count]`. -/
theorem c10_read_lines_slice (content : String) (fp : String) (r : Nat × Nat) :
    (r.1 ≤ r.2 → r.2 ≤ (rustLines content).length →
      Fragment.read_lines content ⟨fp, r⟩ =
        .ok (joinNl (((rustLines content).drop r.1).take (r.2 - r.1)))) ∧
    ((rustLines content).length < r.1 ∨ (rustLines content).length < r.2 →
      Fragment.read_lines content ⟨fp, r⟩ =
        .err (boundsErrMsg r (rustLines content).length)) := by
  constructor
  · intro h1 h2
    simp only [Fragment.read_lines]
    rw [if_neg (by omega), if_neg (by omega)]
  · intro h
    simp only [Fragment.read_lines]
    rw [if_pos h]

/-- Witness for C10 at a concrete input: slice `(1, 3)` of a four-line file. -/
theorem c10_witness :
    Fragment.read_lines "a\nb\nc\nd" ⟨"f.rs", (1, 3)⟩ =
      .ok (joinNl (((rustLines "a\nb\nc\nd").drop 1).take (3 - 1))) :=
  (c10_read_lines_slice "a\nb\nc\nd" "f.rs" (1, 3)).1 (by decide) (by decide)

/-- A minimal well-formed edit block. -/
def blockA : String := "filepath: a.rs\nstart_line: 1\nend_line: 2\ncontent: x\n\x60\x60\x60"

/-- A second well-formed edit block. -/
def blockB : String := "filepath: b.rs\nstart_line: 3\nend_line: 4\ncontent: y\n\x60\x60\x60"

/-- Oracle text containing two well-formed edit blocks. -/
def twoBlocks : String := blockA ++ "\n" ++ blockB

/-- C4 (amended): the parser returns at most **one** transformation — the one
built from the leftmost match of the template regex — never a sequence of
them; with zero matches (in particular, any text without a closing fence) it
fails with the parse error rather than returning an empty sequence.
`specParseAll` is the spec's "extract every occurrence" reading; the source
takes exactly its head. -/
theorem c4_single_match (s : String) :
    (¬ ("\x60\x60\x60".data <:+: s.data) →
      transformationTryFrom s = .err "failed to parse transformation") ∧
    (specParseAll s = [] →
      transformationTryFrom s = .err "failed to parse transformation") ∧
    (∀ p ps', specParseAll s = p :: ps' → transformationTryFrom s = p) := by
  refine ⟨?_, ?_, ?_⟩
  · intro h
    cases hf : findFirst instrPat s.data with
    | none => rw [transformationTryFrom, hf]
    | some r =>
      obtain ⟨caps, rest⟩ := r
      exact absurd (findFirst_lit_occurs hf fence_mem_instrPat) h
  · intro h
    rw [specParseAll, findAll_eq] at h
    cases hf : findFirst instrPat s.data with
    | none => rw [transformationTryFrom, hf]
    | some r =>
      obtain ⟨caps, rest⟩ := r
      rw [hf] at h
      simp at h
  · intro p ps' h
    rw [specParseAll, findAll_eq] at h
    cases hf : findFirst instrPat s.data with
    | none => rw [hf] at h; simp at h
    | some r =>
      obtain ⟨caps, rest⟩ := r
      rw [hf] at h
      simp only [List.map_cons, List.cons.injEq] at h
      rw [transformationTryFrom, hf]
      show mkUpdateFragment caps = p
      exact h.1

/-- C4 counterexample: `blockA` and `blockB` are each individually well-formed
(each parses to one transformation on its own), yet on the concatenated text
the parse yields a single transformation — not two — because the greedy
content capture of the first match swallows the entire second block up to the
final closing fence. -/
theorem c4_counterexample :
    transformationTryFrom blockA = .ok (.UpdateFragment ⟨"a.rs", (1, 2)⟩ ["x"]) ∧
    transformationTryFrom blockB = .ok (.UpdateFragment ⟨"b.rs", (3, 4)⟩ ["y"]) ∧
    (specParseAll twoBlocks).length ≠ 2 ∧
    specParseAll twoBlocks =
      [.ok (.UpdateFragment ⟨"a.rs", (1, 2)⟩
        ["x", "\x60\x60\x60", "filepath: b.rs", "start_line: 3", "end_line: 4",
         "content: y"])] :=
  ⟨by decide, by decide, by decide, by decide⟩

/-- Witness for C4's amended theorem: a matchless text yields the parse error,
and the two-block text yields exactly the head of the all-occurrences
sequence. -/
theorem c4_witness :
    transformationTryFrom "no edit blocks here" = .err "failed to parse transformation" ∧
    transformationTryFrom twoBlocks =
      .ok (.UpdateFragment ⟨"a.rs", (1, 2)⟩
        ["x", "\x60\x60\x60", "filepath: b.rs", "start_line: 3", "end_line: 4",
         "content: y"]) :=
  ⟨(c4_single_match "no edit blocks here").1 (by decide),
   (c4_single_match twoBlocks).2.2 _ [] (by decide)⟩

/-- C6: the `Comment` derived from a recognized error block whose 1-based line
number parses to `L ≥ 1` carries exactly one `Fragment`, with line range
`(L - 1, L)` on the diagnostic's file path; and every comment produced by the
build step arises this way from one of the matched error blocks. -/
theorem c6_fragment_span :
    (∀ (e f ln col : List Char) (L : Nat), parseUsize ln = some L → 1 ≤ L →
      mkDiagComment [e, f, ln, col] =
        some ⟨templateDebug (String.mk e), [⟨String.mk f, (L - 1, L)⟩]⟩) ∧
    (∀ (stderr : List Char) (cs : List Comment), buildComments stderr = some cs →
      ∀ c ∈ cs, ∃ caps ∈ diagMatches stderr, mkDiagComment caps = some c) := by
  constructor
  · intro e f ln col L hp hL
    rw [mkDiagComment]
    simp only [hp]
    rw [if_neg (by omega)]
  · intro stderr cs h c hc
    exact collectComments_mem h hc

/-- Witness for C6 at a concrete diagnostic: line `42` becomes the zero-based
half-open single-line span `(41, 42)`. -/
theorem c6_witness :
    mkDiagComment ["mismatched types".data, "src/a.rs".data, "42".data, "7".data] =
      some ⟨templateDebug "mismatched types", [⟨"src/a.rs", (41, 42)⟩]⟩ := by
  have h := c6_fragment_span.1 "mismatched types".data "src/a.rs".data "42".data "7".data
    42 (by decide) (by decide)
  simpa using h

/-- C7 (amended): the build step returns `Ok` exactly when the build process
exits with status code 0; on every other exit, **provided every recognized
error block converts without panicking** (its line number parses as a `usize` —
an overflowing or zero line number instead aborts the process in
`line_no.parse().unwrap() - 1`), it returns `Err` carrying one comment per
recognized error block of stderr; and a non-zero exit whose stderr has zero
recognizable error blocks yields `Err` with the empty sequence. -/
theorem c7_build_outcome (exitCode : Option Int) (stderr : List Char) :
    (rustBuild exitCode stderr = .ok ↔ exitCode = some 0) ∧
    (exitCode ≠ some 0 → ∀ cs, buildComments stderr = some cs →
      rustBuild exitCode stderr = .errs cs ∧
      cs.length = (diagMatches stderr).length) ∧
    (exitCode ≠ some 0 → diagMatches stderr = [] →
      rustBuild exitCode stderr = .errs []) := by
  by_cases he : exitCode = some 0
  · refine ⟨⟨fun _ => he, fun _ => ?_⟩, fun hne => absurd he hne, fun hne _ => absurd he hne⟩
    rw [rustBuild, if_pos he]
  · have hb : rustBuild exitCode stderr =
        match buildComments stderr with
        | some cs => .errs cs
        | none => .panicked := by
      rw [rustBuild, if_neg he]
    refine ⟨⟨fun h => ?_, fun h => absurd h he⟩,
      fun _ cs hbc => ⟨?_, collectComments_length hbc⟩, fun _ hd => ?_⟩
    · rw [hb] at h
      cases hc : buildComments stderr with
      | none => rw [hc] at h; simp at h
      | some cs => rw [hc] at h; simp at h
    · rw [hb, hbc]
    · rw [hb, buildComments, hd]
      rfl

/-- C7 counterexample: a non-zero exit whose stderr contains a recognized error
block (the match list is nonempty) with an overflowing line number makes the
build step panic in `line_no.parse::<usize>().unwrap()` — it does **not**
return `Err`, refuting "on every other outcome it returns Err carrying one
diagnostic per recognized error block". -/
theorem c7_counterexample :
    diagMatches "error: boom\n --> src/a.rs:18446744073709551616:1".data ≠ [] ∧
    rustBuild (some 1) "error: boom\n --> src/a.rs:18446744073709551616:1".data =
      .panicked :=
  ⟨by decide, by decide⟩

/-- Witness for C7's amended theorem: a non-zero exit with one convertible
error block gives `Err` with exactly that one comment, and a non-zero exit
with block-free stderr gives `Err` with the empty sequence. -/
theorem c7_witness :
    (rustBuild (some 1) "error: boom\n --> src/a.rs:42:7".data =
        .errs [⟨templateDebug "boom", [⟨"src/a.rs", (41, 42)⟩]⟩] ∧
      ([⟨templateDebug "boom", [⟨"src/a.rs", (41, 42)⟩]⟩] : List Comment).length =
        (diagMatches "error: boom\n --> src/a.rs:42:7".data).length) ∧
    rustBuild (some 1) "warning: unused".data = .errs [] :=
  ⟨(c7_build_outcome (some 1) "error: boom\n --> src/a.rs:42:7".data).2.1
      (by decide) _ (by decide),
   (c7_build_outcome (some 1) "warning: unused".data).2.2 (by decide) (by decide)⟩

/-- A well-formed edit block whose `start_line` field does not fit in a 64-bit
`usize`. -/
def overflowBlock : String :=
  "filepath: f.rs\nstart_line: 18446744073709551616\nend_line: 2\ncontent: x\n\x60\x60\x60"

/-- C8 (the code, against the claim): on a matched occurrence whose line-number
field cannot be parsed as a `usize` (here `2^64`), the parser's
`start.parse().unwrap()` panics instead of producing a parse-error value. -/
theorem c8_unwrap_panics :
    parseUsize "18446744073709551616".data = none ∧
    transformationTryFrom overflowBlock = .panicked :=
  ⟨by decide, by decide⟩

/-- C9 (amended): on every successful `UpdateFragment` application the file is
rewritten as the resulting lines joined with `"\n"` and **no terminator
appended**; consequently, whenever the resulting last line is nonempty and
newline-free, the written content does not end with a newline — so a typical
file ending in a trailing newline loses it.  (A trailing newline can survive
only through an empty resulting last line, as `c9_counterexample` shows.) -/
theorem c9_join_no_terminator (content : String) (t : Transformation)
    (newLines : List String) (h : GitRepository.transform content t = .ok newLines) :
    fileAfter content t = joinNl newLines ∧
    (∀ lastLine, newLines.getLast? = some lastLine → lastLine.data ≠ [] →
      '\n' ∉ lastLine.data → (fileAfter content t).data.getLast? ≠ some '\n') := by
  have hf : fileAfter content t = joinNl newLines := by
    simp only [fileAfter]
    rw [h]
  refine ⟨hf, ?_⟩
  intro lastLine hlast hne hnl
  rw [hf, joinNl_getLastChar hlast hne]
  intro hcon
  exact hnl (List.mem_of_mem_getLast? hcon)

/-- C9 counterexample: the original content `"a\n\n"` ends with a trailing
newline, the transform replacing line 0 succeeds without touching the last
(empty) line, and the rewritten content `"X\n"` **still** ends with a newline,
contradicting the claim that any successful transform loses the final
newline. -/
theorem c9_counterexample :
    "a\n\n".data.getLast? = some '\n' ∧
    GitRepository.transform "a\n\n" (.UpdateFragment ⟨"f.rs", (0, 0)⟩ ["X"]) =
      .ok ["X", ""] ∧
    fileAfter "a\n\n" (.UpdateFragment ⟨"f.rs", (0, 0)⟩ ["X"]) = "X\n" ∧
    ("X\n").data.getLast? = some '\n' :=
  ⟨by decide, by decide, by decide, by decide⟩

/-- Witness for C9's amended theorem: a file ending in a trailing newline,
edited away from its last line, is rewritten without a trailing newline. -/
theorem c9_witness :
    fileAfter "a\nb\nc\nd\n" (.UpdateFragment ⟨"f.rs", (1, 1)⟩ ["X"]) =
      joinNl ["a", "X", "c", "d"] ∧
    (fileAfter "a\nb\nc\nd\n" (.UpdateFragment ⟨"f.rs", (1, 1)⟩ ["X"])).data.getLast? ≠
      some '\n' := by
  have h := c9_join_no_terminator "a\nb\nc\nd\n" (.UpdateFragment ⟨"f.rs", (1, 1)⟩ ["X"])
    ["a", "X", "c", "d"] (by decide)
  exact ⟨h.1, h.2 "d" (by decide) (by decide) (by decide)⟩

end Rakune
